import Mathlib

/-!
Verification of the promise-combinator module (src/promise.js) of
lively.lang against its specification.

The module is modelled with a shallow embedding:

* JavaScript runtime values are the inductive type `JSVal`; JS truthiness
  is the boolean `truthy`.
* A settled future is `Except JSVal JSVal` (`.ok v` = fulfilled with `v`,
  `.error e` = rejected with `e`).
* `timeout` is modelled operationally: the two racing events (deadline
  timer fires, input future settles) arrive as a list in temporal order
  and are processed by the guarded handler from the source, which checks
  and sets the closure-captured `done` flag.
* `waitFor` is modelled as a tick-indexed recursion: tick `k` (for
  k = 1, 2, ...) is the interval callback running at time `10 * k` ms;
  the deadline callback merely sets the `error` flag, observed by a tick
  at time strictly greater than `ms` (the interval was registered before
  the deadline timer, so a tick falling exactly on the deadline runs
  first).  The recursion takes fuel, since polling without a deadline
  can go on forever; `.pending` means the fuel ran out before the
  future settled.
* `chain` / `_chainResolveNext` recurse structurally on the list of
  step functions; the JS mutation of the shared `akku` object is
  modelled by threading the map through the steps, and the private
  `slice()` copy of the list is the (pure) list value itself.
* The callback adapters model the wrapped function by the list of
  arguments it eventually passes to the appended completion callback,
  as a function of the call context `this` and the call arguments.
-/

namespace LivelyPromise

/-- JavaScript runtime values, as far as the promise module observes them. -/
inductive JSVal where
  | undef
  | null
  | bool (b : Bool)
  | num (n : Int)
  | str (s : String)
  | err (msg : String)
  | list (xs : List JSVal)
  | obj (fields : List (String × JSVal))

/-- JavaScript truthiness of a value. -/
def truthy : JSVal → Bool
  | .undef => false
  | .null => false
  | .bool b => b
  | .num n => n != 0
  | .str s => !s.isEmpty
  | .err _ => true
  | .list _ => true
  | .obj _ => true

/-- The shared mutable state object threaded through a chain, modelled as an
association list of fields. -/
abbrev SharedState := List (String × JSVal)

/-- JS field assignment on the shared state object. -/
def setField : SharedState → String → JSVal → SharedState
  | [], k, v => [(k, v)]
  | (k₀, v₀) :: rest, k, v =>
    if k₀ = k then (k, v) :: rest else (k₀, v₀) :: setField rest k v

/-! ## timeout (src/promise.js lines 35-46) -/

/-- One of the two events racing inside `timeout`: the deadline timer fires,
or the input future settles with a result. -/
inductive RaceEvent where
  | timerFire
  | inputSettle (r : Except JSVal JSVal)

/-- A settlement of the future returned by `timeout`. -/
inductive TimeoutOutcome where
  | fulfilled (v : JSVal)
  | rejected (e : JSVal)

/-- The closure state of `timeout`: the `done` guard and the settlement of
the returned future, if any. -/
structure RaceState where
  done : Bool
  settled : Option TimeoutOutcome

/-- The guarded settlement handler of `timeout`: each of the three callbacks
in the source first checks `!done`, then sets `done = true`, then settles.
The timer callback rejects with an Error carrying the fixed message; the
input callbacks forward fulfillment and rejection unchanged. -/
def timeoutHandle (s : RaceState) (ev : RaceEvent) : RaceState :=
  if s.done then s
  else match ev with
    | .timerFire => { done := true, settled := some (.rejected (.err "Promise timed out")) }
    | .inputSettle (.ok v) => { done := true, settled := some (.fulfilled v) }
    | .inputSettle (.error e) => { done := true, settled := some (.rejected e) }

/-- `timeout ms p`, run on the temporally ordered list of race events. -/
def timeout (events : List RaceEvent) : Option TimeoutOutcome :=
  (events.foldl timeoutHandle { done := false, settled := none }).settled

/-- What a race event settles the timeout future with, when it wins. -/
def eventOutcome : RaceEvent → TimeoutOutcome
  | .timerFire => .rejected (.err "Promise timed out")
  | .inputSettle (.ok v) => .fulfilled v
  | .inputSettle (.error e) => .rejected e

/-! ## waitFor (src/promise.js lines 48-71) -/

/-- Outcome of polling inside `waitFor`: still pending when the fuel ran
out, or settled at a given tick. Tick `k` happens at time `10 * k` ms. -/
inductive WaitOutcome where
  | pending
  | fulfilled (tick : Nat) (v : JSVal)
  | rejected (tick : Nat) (e : JSVal)

/-- What the interval callback at tick `k` does, if it settles the future:
it calls the tester inside try/catch (a thrown error is stored in `error`,
overwriting a pending timeout error); then, if `value || error`, it stops
the interval and rejects with `error` if set, else resolves with `value`.
`ms` is the optional deadline; its timer sets the timeout error, which has
happened before tick `k` exactly when `10 * k` is past the deadline.
`none` means the tick leaves the future pending and polling continues. -/
def tickOutcome (ms : Option Nat) (tester : Nat → Except JSVal JSVal) (k : Nat) :
    Option WaitOutcome :=
  match tester k with
  | .error e => some (.rejected k e)
  | .ok v =>
    if (match ms with | some m => decide (m < 10 * k) | none => false) then
      some (.rejected k (.err "timeout"))
    else if truthy v then some (.fulfilled k v)
    else none

/-- The polling loop of `waitFor` from tick `j` on, with the given fuel. -/
def waitForRun (ms : Option Nat) (tester : Nat → Except JSVal JSVal) :
    Nat → Nat → WaitOutcome
  | 0, _ => .pending
  | fuel + 1, k =>
    match tickOutcome ms tester k with
    | some o => o
    | none => waitForRun ms tester fuel (k + 1)

/-- `waitFor ms tester`: polling starts at tick 1 (time 10 ms).  The
one-argument call shape `waitFor(tester)` is `ms = none`. -/
def waitFor (ms : Option Nat) (tester : Nat → Except JSVal JSVal) (fuel : Nat) :
    WaitOutcome :=
  waitForRun ms tester fuel 1

/-! ## chain (src/promise.js lines 122-153) -/

/-- What a chain step does when invoked: either throws synchronously, or
returns (having possibly mutated the shared state) a value whose
future-normalization settles with `r`. -/
inductive StepOut where
  | thrown (e : JSVal)
  | ret (r : Except JSVal JSVal) (st : SharedState)

/-- A chain step function: receives the previous result and the shared
state object. -/
abbrev ChainStep := JSVal → SharedState → StepOut

/-- `_chainResolveNext`: shift the next step off the pending list (here:
head/tail of the private list); if none remains, resolve with the previous
result.  Otherwise invoke it inside try/catch (a synchronous throw
rejects), normalize the return value to a future, reject on its rejection,
and recurse on its fulfillment value with the threaded shared state. -/
def chainResolveNext : List ChainStep → JSVal → SharedState → Except JSVal JSVal
  | [], prevResult, _ => .ok prevResult
  | next :: rest, prevResult, akku =>
    match next prevResult akku with
    | .thrown e => .error e
    | .ret (.error e) _ => .error e
    | .ret (.ok v) akku₁ => chainResolveNext rest v akku₁

/-- `chain steps`: runs `_chainResolveNext` on a private copy of the step
list (`steps.slice()`, a pure copy here), with `undefined` as the first
previous result and a fresh empty shared state object. -/
def chain (steps : List ChainStep) : Except JSVal JSVal :=
  chainResolveNext steps .undef []

/-! ## promise_finally (src/promise.js lines 155-159) -/

/-- Observable side effects of the finally wrapper: how many times the
cleanup callback ran and which cleanup errors were logged. -/
structure FinallyEff where
  calls : Nat
  logged : List JSVal

/-- The host `.then(onFulfilled)` with effect bookkeeping: on fulfillment
run the handler, on rejection pass the rejection through untouched. -/
def thenWithEff (p : Except JSVal JSVal)
    (onF : JSVal → Except JSVal JSVal × FinallyEff) :
    Except JSVal JSVal × FinallyEff :=
  match p with
  | .ok v => onF v
  | .error e => (.error e, { calls := 0, logged := [] })

/-- The host `.catch(onRejected)` with effect bookkeeping: on rejection run
the handler and accumulate its effects, on fulfillment pass through. -/
def catchWithEff (pe : Except JSVal JSVal × FinallyEff)
    (onR : JSVal → Except JSVal JSVal × FinallyEff) :
    Except JSVal JSVal × FinallyEff :=
  match pe with
  | (.ok v, eff) => (.ok v, eff)
  | (.error e, eff) =>
    match onR e with
    | (r, eff₁) => (r, { calls := eff.calls + eff₁.calls, logged := eff.logged ++ eff₁.logged })

/-- `promise_finally promise finallyFn`:
`Promise.resolve(promise).then(h).catch(h2)` where both handlers run
`finallyFn()` inside try/catch — a thrown cleanup error is only logged via
`console.error` — and then re-fulfill with the original result
(`return result`) resp. re-reject with the original error (`throw err`).
The cleanup callback may throw: `.error e` models a throw of `e`. -/
def promise_finally (p : Except JSVal JSVal) (finallyFn : Unit → Except JSVal Unit) :
    Except JSVal JSVal × FinallyEff :=
  catchWithEff
    (thenWithEff p (fun result =>
      match finallyFn () with
      | .ok _ => (.ok result, { calls := 1, logged := [] })
      | .error e => (.ok result, { calls := 1, logged := [e] })))
    (fun errv =>
      match finallyFn () with
      | .ok _ => (.error errv, { calls := 1, logged := [] })
      | .error e => (.error errv, { calls := 1, logged := [e] }))

/-! ## callback adapters (src/promise.js lines 84-120) -/

/-- A nodejs-callback-style function, modelled by the argument list it
eventually passes to the appended completion callback, as a function of the
calling context `this` and the adapted call arguments
(`func.apply(self, args)` with the completion callback pushed onto
`args`). -/
abbrev CallbackFn := JSVal → List JSVal → List JSVal

/-- The completion callback appended by `convertCallbackFun`:
`(err, result) => err ? reject(err) : resolve(result)` — JS binds `err` to
the first argument and `result` to the second, missing arguments being
`undefined`; further arguments are discarded by the parameter list. -/
def completionSingle (cbArgs : List JSVal) : Except JSVal JSVal :=
  let e := cbArgs.headD .undef
  let result := (cbArgs.drop 1).headD .undef
  if truthy e then .error e else .ok result

/-- `convertCallbackFun func`: the adapted function collects its arguments
and `this`, appends the single-result completion callback and applies
`func` once; the returned future settles as the completion dictates. -/
def convertCallbackFun (func : CallbackFn) :
    JSVal → List JSVal → Except JSVal JSVal :=
  fun self args => completionSingle (func self args)

/-- The completion callback appended by `convertCallbackFunWithManyArgs`:
collect all arguments, `shift()` the error off the front (`undefined` when
there is none), reject on a truthy error, else resolve with the remaining
arguments as an array. -/
def completionMany (cbArgs : List JSVal) : Except JSVal JSVal :=
  let e := cbArgs.headD .undef
  let rest := cbArgs.tail
  if truthy e then .error e else .ok (.list rest)

/-- `convertCallbackFunWithManyArgs func`: like `convertCallbackFun` but
with the many-results completion callback. -/
def convertCallbackFunWithManyArgs (func : CallbackFn) :
    JSVal → List JSVal → Except JSVal JSVal :=
  fun self args => completionMany (func self args)

/-! ## promise (src/promise.js lines 7-19) -/

/-- A possible argument to the generic converter `promise`: a function, a
thenable (an object with `then`, whose eventual settlement is `settlement`),
or any other plain value. -/
inductive PromiseInput where
  | func (f : CallbackFn)
  | thenable (settlement : Except JSVal JSVal)
  | value (v : JSVal)

/-- What `promise` returns: either an adapted function (still to be
invoked by the caller) or a future. -/
inductive PromiseOutput where
  | adaptedFun (g : JSVal → List JSVal → Except JSVal JSVal)
  | future (r : Except JSVal JSVal)

/-- Discriminator: is the output of `promise` a future? -/
def isFuture : PromiseOutput → Bool
  | .adaptedFun _ => false
  | .future _ => true

/-- `promise obj`: `typeof obj === "function"` dispatches to
`convertCallbackFun`; everything else goes through `Promise.resolve`,
which adopts the settlement of a thenable and immediately fulfills with
any other value. -/
def promise : PromiseInput → PromiseOutput
  | .func f => .adaptedFun (convertCallbackFun f)
  | .thenable s => .future s
  | .value v => .future (.ok v)

/-! ## helper lemmas -/

/-- Once the `done` guard of `timeout` is set, later events are discarded. -/
lemma timeoutHandle_done (s : RaceState) (hs : s.done = true) :
    ∀ events : List RaceEvent, events.foldl timeoutHandle s = s := by
  intro events
  induction events with
  | nil => rfl
  | cons ev rest ih =>
    have h1 : timeoutHandle s ev = s := by
      unfold timeoutHandle
      simp [hs]
    simp [List.foldl_cons, h1, ih]

/-- Every handler result of the initial race state is `done` with the
settlement determined by the event. -/
lemma timeoutHandle_first (ev : RaceEvent) :
    timeoutHandle { done := false, settled := none } ev =
      { done := true, settled := some (eventOutcome ev) } := by
  cases ev with
  | timerFire => rfl
  | inputSettle r => cases r <;> rfl

/-- If ticks `j ≤ k < n` leave the future pending and tick `n` settles it
with `o`, the polling loop from tick `j` returns `o` (given enough fuel). -/
lemma waitForRun_first_settle (ms : Option Nat) (tester : Nat → Except JSVal JSVal) :
    ∀ fuel j n o, j ≤ n → n < j + fuel →
    (∀ k, j ≤ k → k < n → tickOutcome ms tester k = none) →
    tickOutcome ms tester n = some o →
    waitForRun ms tester fuel j = o := by
  intro fuel
  induction fuel with
  | zero => intro j n o hjn hlt _ _; omega
  | succ f ih =>
    intro j n o hjn hlt hnone hsettle
    rcases Nat.eq_or_lt_of_le hjn with heq | hlt₂
    · subst heq
      unfold waitForRun
      simp [hsettle]
    · have hj : tickOutcome ms tester j = none := hnone j le_rfl hlt₂
      unfold waitForRun
      simp only [hj]
      exact ih (j + 1) n o hlt₂ (by omega)
        (fun k hk₁ hk₂ => hnone k (by omega) hk₂) hsettle

/-- A tick strictly before the first post-deadline tick, at which the
tester returns a falsy value without throwing, leaves the future
pending. -/
lemma tickOutcome_none_of_falsy (ms : Option Nat) (tester : Nat → Except JSVal JSVal)
    (k : Nat) (v : JSVal) (hv : tester k = .ok v) (hfalsy : truthy v = false)
    (hdead : ∀ m, ms = some m → 10 * k ≤ m) :
    tickOutcome ms tester k = none := by
  unfold tickOutcome
  cases hms : ms with
  | none => simp [hv, hfalsy]
  | some m =>
    have hle : 10 * k ≤ m := hdead m hms
    simp [hv, hfalsy, Nat.not_lt.mpr hle]

/-- Evaluating the tick at `k` when the tester returns normally. -/
lemma tickOutcome_ok (ms : Option Nat) (tester : Nat → Except JSVal JSVal)
    (k : Nat) (v : JSVal) (hv : tester k = .ok v) :
    tickOutcome ms tester k =
      (if (match ms with | some m => decide (m < 10 * k) | none => false) then
        some (.rejected k (.err "timeout"))
      else if truthy v then some (.fulfilled k v) else none) := by
  unfold tickOutcome
  rw [hv]

/-- Evaluating the tick at `k` when the tester throws. -/
lemma tickOutcome_throw (ms : Option Nat) (tester : Nat → Except JSVal JSVal)
    (k : Nat) (e : JSVal) (he : tester k = .error e) :
    tickOutcome ms tester k = some (.rejected k e) := by
  unfold tickOutcome
  rw [he]

/-! ## claim theorems -/

/-- JS numeric addition, as used in the worked chain example. -/
def jsAdd : JSVal → JSVal → JSVal
  | .num a, .num b => .num (a + b)
  | _, _ => JSVal.undef

/-- Example step from the spec: returns 1. -/
def exStep1 : ChainStep := fun _ st => .ret (.ok (.num 1)) st

/-- Example step from the spec: stores the previous result under the field
a of the shared state and returns the previous result plus one. -/
def exStep2 : ChainStep := fun prevResult st =>
  .ret (.ok (jsAdd prevResult (.num 1))) (setField st "a" prevResult)

/-- Example step from the spec: returns a copy of the shared state with the
previous result added under the field total. -/
def exStep3 : ChainStep := fun prevResult st =>
  .ret (.ok (.obj (st ++ [("total", prevResult)]))) st

/-- Example step from the spec: throws the error x. -/
def exThrowStep : ChainStep := fun _ _ => .thrown (.err "x")

/-- Example step from the spec: returns 99. -/
def exStep99 : ChainStep := fun _ st => .ret (.ok (.num 99)) st

/-- Example tester from the spec: falsy twice, then 42. -/
def exTester3 : Nat → Except JSVal JSVal :=
  fun k => if k < 3 then .ok (.bool false) else .ok (.num 42)

/-- Example tester: falsy once, then throws. -/
def exTesterThrow : Nat → Except JSVal JSVal :=
  fun k => if k < 2 then .ok (.bool false) else .error (.err "boom")

/-- Claim C1: chain runs on a private copy of the step list with a fresh
empty shared-state map (so the callers list is never modified), invokes
the steps strictly left to right — the first with previousResult equal to
undefined, each subsequent one with the fulfillment value of the previous
steps future-normalized result and the threaded shared-state map — and,
when no steps remain, fulfills with the most recent result. -/
theorem chain_runs_steps_in_order :
    (∀ steps : List ChainStep, chain steps = chainResolveNext steps JSVal.undef [])
    ∧ (∀ (prevResult : JSVal) (akku : SharedState),
        chainResolveNext [] prevResult akku = .ok prevResult)
    ∧ (∀ (next : ChainStep) (rest : List ChainStep) (prevResult v : JSVal)
        (akku akku₁ : SharedState), next prevResult akku = .ret (.ok v) akku₁ →
        chainResolveNext (next :: rest) prevResult akku = chainResolveNext rest v akku₁) := by
  refine ⟨fun _ => rfl, fun _ _ => rfl, ?_⟩
  intro next rest prevResult v akku akku₁ h
  simp [chainResolveNext, h]

/-- Witness for C1: the second step of the worked spec example receives
the fulfillment value 1 of the first and hands 2 plus the updated state to
the third; the whole example chain fulfills with the object
(a = 1, total = 2). -/
theorem chain_runs_steps_in_order_witness :
    chainResolveNext [exStep2, exStep3] (JSVal.num 1) []
        = chainResolveNext [exStep3] (JSVal.num 2) [("a", JSVal.num 1)]
    ∧ chain [exStep1, exStep2, exStep3]
        = .ok (.obj [("a", JSVal.num 1), ("total", JSVal.num 2)]) :=
  ⟨chain_runs_steps_in_order.2.2 exStep2 [exStep3] (JSVal.num 1) (JSVal.num 2)
      [] [("a", JSVal.num 1)] rfl,
   by rw [chain_runs_steps_in_order.1]; rfl⟩

/-- Claim C2: if a chain step throws synchronously or returns a future
that rejects with an error e, chain rejects with that same e; the steps
after the failing one are never invoked (the outcome does not depend on
them), and the synchronous throw is caught at the point of invocation and
converted to a rejection, never escaping to the caller. -/
theorem chain_stops_on_error :
    (∀ (next : ChainStep) (rest : List ChainStep) (prevResult : JSVal)
        (akku : SharedState) (e : JSVal), next prevResult akku = .thrown e →
        chainResolveNext (next :: rest) prevResult akku = .error e)
    ∧ (∀ (next : ChainStep) (rest : List ChainStep) (prevResult : JSVal)
        (akku akku₁ : SharedState) (e : JSVal),
        next prevResult akku = .ret (.error e) akku₁ →
        chainResolveNext (next :: rest) prevResult akku = .error e)
    ∧ (∀ (next : ChainStep) (rest rest₂ : List ChainStep) (prevResult : JSVal)
        (akku : SharedState) (e : JSVal),
        (next prevResult akku = .thrown e
          ∨ ∃ akku₁, next prevResult akku = .ret (.error e) akku₁) →
        chainResolveNext (next :: rest) prevResult akku
          = chainResolveNext (next :: rest₂) prevResult akku) := by
  refine ⟨?_, ?_, ?_⟩
  · intro next rest prevResult akku e h
    simp [chainResolveNext, h]
  · intro next rest prevResult akku akku₁ e h
    simp [chainResolveNext, h]
  · rintro next rest rest₂ prevResult akku e (h | ⟨akku₁, h⟩) <;>
      simp [chainResolveNext, h]

/-- Witness for C2: the spec example whose first step throws the error x
rejects with that error, and the outcome does not depend on the step after
the failing one. -/
theorem chain_stops_on_error_witness :
    chain [exThrowStep, exStep99] = .error (JSVal.err "x")
    ∧ chainResolveNext [exThrowStep, exStep99] JSVal.undef []
        = chainResolveNext [exThrowStep] JSVal.undef [] :=
  ⟨chain_stops_on_error.1 exThrowStep [exStep99] JSVal.undef [] (JSVal.err "x") rfl,
   chain_stops_on_error.2.2 exThrowStep [exStep99] [] JSVal.undef [] (JSVal.err "x")
     (Or.inl rfl)⟩

/-- Claim C5: with the one-argument call shape (no deadline), waitFor
polls the tester on the fixed 10 ms interval; if the tester is falsy
without throwing at every tick before n, then a truthy return v at tick n
fulfills the future with v there, and a throw of e at tick n rejects the
future with e there; in both cases polling stops — any tester that agrees
up to tick n produces the same settlement, so no invocation after the
settlement can influence anything. -/
theorem waitFor_polls_until_truthy_or_throw (tester : Nat → Except JSVal JSVal)
    (n fuel : Nat) (h1 : 1 ≤ n) (hfuel : n ≤ fuel)
    (hbefore : ∀ k, 1 ≤ k → k < n → ∃ v, tester k = .ok v ∧ truthy v = false) :
    (∀ v, tester n = .ok v → truthy v = true →
      waitFor none tester fuel = .fulfilled n v
      ∧ ∀ tester₂, (∀ k, k ≤ n → tester₂ k = tester k) →
          waitFor none tester₂ fuel = .fulfilled n v)
    ∧ (∀ e, tester n = .error e →
      waitFor none tester fuel = .rejected n e
      ∧ ∀ tester₂, (∀ k, k ≤ n → tester₂ k = tester k) →
          waitFor none tester₂ fuel = .rejected n e) := by
  have main : ∀ (tester₂ : Nat → Except JSVal JSVal),
      (∀ k, k ≤ n → tester₂ k = tester k) →
      ∀ o, tickOutcome none tester₂ n = some o → waitFor none tester₂ fuel = o := by
    intro tester₂ hagree o hsettle
    refine waitForRun_first_settle none tester₂ fuel 1 n o h1 (by omega) ?_ hsettle
    intro k hk1 hkn
    obtain ⟨v, hv, hfv⟩ := hbefore k hk1 hkn
    exact tickOutcome_none_of_falsy none tester₂ k v
      ((hagree k (by omega)).trans hv) hfv (fun m hm => by cases hm)
  constructor
  · intro v hv htr
    have hs : ∀ (tester₂ : Nat → Except JSVal JSVal), (∀ k, k ≤ n → tester₂ k = tester k) →
        tickOutcome none tester₂ n = some (.fulfilled n v) := by
      intro tester₂ hagree
      rw [tickOutcome_ok none tester₂ n v ((hagree n le_rfl).trans hv)]
      simp [htr]
    exact ⟨main tester (fun _ _ => rfl) _ (hs tester (fun _ _ => rfl)),
      fun tester₂ hagree => main tester₂ hagree _ (hs tester₂ hagree)⟩
  · intro e he
    have hs : ∀ (tester₂ : Nat → Except JSVal JSVal), (∀ k, k ≤ n → tester₂ k = tester k) →
        tickOutcome none tester₂ n = some (.rejected n e) := by
      intro tester₂ hagree
      exact tickOutcome_throw none tester₂ n e ((hagree n le_rfl).trans he)
    exact ⟨main tester (fun _ _ => rfl) _ (hs tester (fun _ _ => rfl)),
      fun tester₂ hagree => main tester₂ hagree _ (hs tester₂ hagree)⟩

/-- Witness for C5: the spec example tester (falsy twice, then 42)
fulfills with 42 at the third tick, and a tester that throws at its second
tick rejects there with its error. -/
theorem waitFor_polls_until_truthy_or_throw_witness :
    waitFor none exTester3 5 = .fulfilled 3 (JSVal.num 42)
    ∧ waitFor none exTesterThrow 5 = .rejected 2 (JSVal.err "boom") :=
  ⟨((waitFor_polls_until_truthy_or_throw exTester3 3 5 (by norm_num) (by norm_num)
      (fun k hk1 hk2 => ⟨JSVal.bool false, by simp [exTester3, hk2], rfl⟩)).1
      (JSVal.num 42) (by simp [exTester3]) rfl).1,
   ((waitFor_polls_until_truthy_or_throw exTesterThrow 2 5 (by norm_num) (by norm_num)
      (fun k hk1 hk2 => ⟨JSVal.bool false, by simp [exTesterThrow, hk2], rfl⟩)).2
      (JSVal.err "boom") (by simp [exTesterThrow]) ).1⟩

/-- Claim C3: with a numeric deadline m, if the tester never throws and
never returns truthy while the deadline has not elapsed, the future
rejects with the timeout error at the first tick past the deadline —
that is at time 10 * (m / 10 + 1), at or after m milliseconds — polling
stops, and no tester invocation after the rejection tick can influence
the outcome. -/
theorem waitFor_deadline_rejects (m : Nat) (tester : Nat → Except JSVal JSVal)
    (fuel : Nat) (hok : ∀ k, ∃ v, tester k = .ok v)
    (hfalsy : ∀ k v, 10 * k ≤ m → tester k = .ok v → truthy v = false)
    (hfuel : m / 10 + 1 ≤ fuel) :
    (waitFor (some m) tester fuel = .rejected (m / 10 + 1) (.err "timeout"))
    ∧ m ≤ 10 * (m / 10 + 1)
    ∧ ∀ tester₂, (∀ k, k ≤ m / 10 + 1 → tester₂ k = tester k) →
        waitFor (some m) tester₂ fuel = .rejected (m / 10 + 1) (.err "timeout") := by
  have hdm := Nat.div_add_mod m 10
  have hmod : m % 10 < 10 := Nat.mod_lt m (by norm_num)
  have hpast : m < 10 * (m / 10 + 1) := by omega
  have main : ∀ (tester₂ : Nat → Except JSVal JSVal),
      (∀ k, k ≤ m / 10 + 1 → tester₂ k = tester k) →
      waitFor (some m) tester₂ fuel = .rejected (m / 10 + 1) (.err "timeout") := by
    intro tester₂ hagree
    refine waitForRun_first_settle (some m) tester₂ fuel 1 (m / 10 + 1)
      (.rejected (m / 10 + 1) (.err "timeout")) (by omega) (by omega) ?_ ?_
    · intro k hk1 hkn
      obtain ⟨v, hv⟩ := hok k
      have hkle : 10 * k ≤ m := by omega
      exact tickOutcome_none_of_falsy (some m) tester₂ k v
        ((hagree k (by omega)).trans hv) (hfalsy k v hkle hv)
        (fun m₂ hm₂ => by cases hm₂; exact hkle)
    · obtain ⟨v, hv⟩ := hok (m / 10 + 1)
      rw [tickOutcome_ok (some m) tester₂ (m / 10 + 1) v
        ((hagree (m / 10 + 1) le_rfl).trans hv)]
      simp [hpast]
  exact ⟨main tester (fun _ _ => rfl), by omega, main⟩

/-- Witness for C3: waitFor with a 20 ms deadline and a tester that is
always false rejects with the timeout error at the third tick (30 ms,
at or after the deadline). -/
theorem waitFor_deadline_rejects_witness :
    waitFor (some 20) (fun _ => .ok (JSVal.bool false)) 3
        = .rejected 3 (JSVal.err "timeout")
    ∧ 20 ≤ 10 * 3 :=
  ⟨(waitFor_deadline_rejects 20 (fun _ => .ok (JSVal.bool false)) 3
      (fun _ => ⟨JSVal.bool false, rfl⟩)
      (fun k v _ hv => by injection hv with h2; subst h2; rfl)
      (by norm_num)).1,
   by norm_num⟩

/-- Claim C10 (implicit): once the numeric deadline m has elapsed with no
prior settlement, the future always rejects at the next poll tick n (the
first tick past the deadline): a truthy tester return at that tick is
discarded and the future still rejects with the timeout error, while a
tester throw at that tick rejects with the tester error, replacing the
timeout error. -/
theorem waitFor_post_deadline_tick (m n : Nat) (tester : Nat → Except JSVal JSVal)
    (fuel : Nat) (h1 : 1 ≤ n) (hfuel : n ≤ fuel)
    (hpre : 10 * (n - 1) ≤ m) (hpost : m < 10 * n)
    (hbefore : ∀ k, 1 ≤ k → k < n → ∃ v, tester k = .ok v ∧ truthy v = false) :
    (∀ v, tester n = .ok v →
      waitFor (some m) tester fuel = .rejected n (.err "timeout"))
    ∧ (∀ e, tester n = .error e →
      waitFor (some m) tester fuel = .rejected n e) := by
  have hnone : ∀ k, 1 ≤ k → k < n → tickOutcome (some m) tester k = none := by
    intro k hk1 hkn
    obtain ⟨v, hv, hfv⟩ := hbefore k hk1 hkn
    exact tickOutcome_none_of_falsy (some m) tester k v hv hfv
      (fun m₂ hm₂ => by cases hm₂; omega)
  constructor
  · intro v hv
    refine waitForRun_first_settle (some m) tester fuel 1 n _ h1 (by omega) hnone ?_
    rw [tickOutcome_ok (some m) tester n v hv]
    simp [hpost]
  · intro e he
    exact waitForRun_first_settle (some m) tester fuel 1 n _ h1 (by omega) hnone
      (tickOutcome_throw (some m) tester n e he)

/-- Witness for C10: with a 5 ms deadline the first tick (10 ms) is
already past the deadline; a tester returning the truthy 7 there still
gets the timeout rejection, and a tester throwing there rejects with its
own error. -/
theorem waitFor_post_deadline_tick_witness :
    waitFor (some 5) (fun _ => .ok (JSVal.num 7)) 1 = .rejected 1 (JSVal.err "timeout")
    ∧ waitFor (some 5) (fun _ => .error (JSVal.err "boom")) 1
        = .rejected 1 (JSVal.err "boom") :=
  ⟨(waitFor_post_deadline_tick 5 1 (fun _ => .ok (JSVal.num 7)) 1
      (by norm_num) (by norm_num) (by norm_num) (by norm_num)
      (fun k hk1 hk2 => absurd (lt_of_le_of_lt hk1 hk2) (by norm_num))).1
      (JSVal.num 7) rfl,
   (waitFor_post_deadline_tick 5 1 (fun _ => .error (JSVal.err "boom")) 1
      (by norm_num) (by norm_num) (by norm_num) (by norm_num)
      (fun k hk1 hk2 => absurd (lt_of_le_of_lt hk1 hk2) (by norm_num))).2
      (JSVal.err "boom") rfl⟩

/-- Claim C4: for every future p and duration ms, timeout settles exactly
once under a first-settle-wins guard — the first of the two race events
(deadline timer fires, input settles) determines the outcome (timer first:
rejection with the fixed timeout message; input first: its fulfillment or
rejection forwarded unchanged), and the losing settlement, indeed every
later event, is discarded. -/
theorem timeout_first_settle_wins (ev : RaceEvent) (rest rest₂ : List RaceEvent) :
    timeout (ev :: rest) = some (eventOutcome ev)
    ∧ timeout (ev :: rest) = timeout (ev :: rest₂) := by
  have key : ∀ r : List RaceEvent, timeout (ev :: r) = some (eventOutcome ev) := by
    intro r
    unfold timeout
    rw [List.foldl_cons, timeoutHandle_first, timeoutHandle_done _ rfl]
  exact ⟨key rest, (key rest).trans (key rest₂).symm⟩

/-- Claim C6: the finally wrapper runs the cleanup callback exactly once on
both the fulfillment and the rejection path, the returned future settles
with the original outcome of p, and a throwing cleanup only gets its error
logged, never replacing or suppressing the original outcome. -/
theorem promise_finally_preserves_outcome (p : Except JSVal JSVal)
    (finallyFn : Unit → Except JSVal Unit) :
    ((promise_finally p finallyFn).1 = p)
    ∧ ((promise_finally p finallyFn).2.calls = 1)
    ∧ (finallyFn () = .ok () → (promise_finally p finallyFn).2.logged = [])
    ∧ (∀ ce, finallyFn () = .error ce → (promise_finally p finallyFn).2.logged = [ce]) := by
  cases p <;> cases hf : finallyFn () <;>
    simp [promise_finally, thenWithEff, catchWithEff, hf]

/-- Witness for C6: a fulfilled future with a throwing cleanup keeps its
value, the cleanup runs once and its error is logged; a rejected future
with a quiet cleanup keeps its error. -/
theorem promise_finally_preserves_outcome_witness :
    (promise_finally (.ok (JSVal.num 5)) (fun _ => .error (JSVal.str "boom"))).1
        = .ok (JSVal.num 5)
    ∧ (promise_finally (.ok (JSVal.num 5)) (fun _ => .error (JSVal.str "boom"))).2.calls = 1
    ∧ (promise_finally (.ok (JSVal.num 5)) (fun _ => .error (JSVal.str "boom"))).2.logged
        = [JSVal.str "boom"]
    ∧ (promise_finally (.error (JSVal.err "e")) (fun _ => .ok ())).1
        = .error (JSVal.err "e")
    ∧ (promise_finally (.error (JSVal.err "e")) (fun _ => .ok ())).2.calls = 1
    ∧ (promise_finally (.error (JSVal.err "e")) (fun _ => .ok ())).2.logged = [] :=
  ⟨(promise_finally_preserves_outcome (.ok (JSVal.num 5)) (fun _ => .error (JSVal.str "boom"))).1,
   (promise_finally_preserves_outcome (.ok (JSVal.num 5)) (fun _ => .error (JSVal.str "boom"))).2.1,
   (promise_finally_preserves_outcome (.ok (JSVal.num 5))
     (fun _ => .error (JSVal.str "boom"))).2.2.2 (JSVal.str "boom") rfl,
   (promise_finally_preserves_outcome (.error (JSVal.err "e")) (fun _ => .ok ())).1,
   (promise_finally_preserves_outcome (.error (JSVal.err "e")) (fun _ => .ok ())).2.1,
   (promise_finally_preserves_outcome (.error (JSVal.err "e")) (fun _ => .ok ())).2.2.1 rfl⟩

/-- Claim C7: the function adapted by convertCallbackFun invokes the
wrapped function exactly once per call, with the callers this and
arguments plus the appended completion callback; when the completion runs
with arguments (error, result, ...), the future rejects with a truthy
error, else fulfills with the single first result argument, any further
result arguments being discarded. -/
theorem convertCallbackFun_adapts (func : CallbackFn) (self : JSVal) (args : List JSVal) :
    (convertCallbackFun func self args = completionSingle (func self args))
    ∧ (∀ e res rest, func self args = e :: res :: rest →
        convertCallbackFun func self args =
          if truthy e then .error e else .ok res) := by
  refine ⟨rfl, ?_⟩
  intro e res rest h
  simp [convertCallbackFun, completionSingle, h]

/-- Witness for C7: a wrapped function calling its callback with
(null, 6) fulfills with 6 — extra callback arguments are discarded — and
one calling the callback with an Error rejects with it. -/
theorem convertCallbackFun_adapts_witness :
    convertCallbackFun (fun _ _ => [JSVal.null, JSVal.num 6, JSVal.num 7])
        JSVal.undef [JSVal.num 3] = .ok (JSVal.num 6)
    ∧ convertCallbackFun (fun _ _ => [JSVal.err "bad", JSVal.num 1])
        JSVal.undef [] = .error (JSVal.err "bad") :=
  ⟨((convertCallbackFun_adapts (fun _ _ => [JSVal.null, JSVal.num 6, JSVal.num 7])
      JSVal.undef [JSVal.num 3]).2 JSVal.null (JSVal.num 6) [JSVal.num 7] rfl).trans (by simp [truthy]),
   ((convertCallbackFun_adapts (fun _ _ => [JSVal.err "bad", JSVal.num 1])
      JSVal.undef []).2 (JSVal.err "bad") (JSVal.num 1) [] rfl).trans (by simp [truthy])⟩

/-- Claim C8: the function adapted by convertCallbackFunWithManyArgs
fulfills with the full ordered list of result arguments of the completion
callback when the error argument is falsy, and rejects with the error
argument when it is truthy. -/
theorem convertCallbackFunWithManyArgs_adapts (func : CallbackFn) (self : JSVal)
    (args : List JSVal) :
    (convertCallbackFunWithManyArgs func self args = completionMany (func self args))
    ∧ (∀ e rest, func self args = e :: rest → truthy e = false →
        convertCallbackFunWithManyArgs func self args = .ok (.list rest))
    ∧ (∀ e rest, func self args = e :: rest → truthy e = true →
        convertCallbackFunWithManyArgs func self args = .error e) := by
  refine ⟨rfl, ?_, ?_⟩ <;> intro e rest h ht <;>
    simp [convertCallbackFunWithManyArgs, completionMany, h, ht]

/-- Witness for C8: a callback invocation cb(null, 1, 2, 3) fulfills with
the list [1, 2, 3]; a truthy first argument rejects. -/
theorem convertCallbackFunWithManyArgs_adapts_witness :
    convertCallbackFunWithManyArgs
        (fun _ _ => [JSVal.null, JSVal.num 1, JSVal.num 2, JSVal.num 3])
        JSVal.undef [] = .ok (.list [JSVal.num 1, JSVal.num 2, JSVal.num 3])
    ∧ convertCallbackFunWithManyArgs (fun _ _ => [JSVal.err "bad"])
        JSVal.undef [] = .error (JSVal.err "bad") :=
  ⟨(convertCallbackFunWithManyArgs_adapts
      (fun _ _ => [JSVal.null, JSVal.num 1, JSVal.num 2, JSVal.num 3]) JSVal.undef []).2.1
      JSVal.null [JSVal.num 1, JSVal.num 2, JSVal.num 3] rfl rfl,
   (convertCallbackFunWithManyArgs_adapts (fun _ _ => [JSVal.err "bad"]) JSVal.undef []).2.2
      (JSVal.err "bad") [] rfl rfl⟩

/-- Claim C9: promise x returns the convertCallbackFun adapter — a
function, not a future — exactly when x is a function; any other plain
value yields a future fulfilled with it, and a thenable has its own
settlement forwarded. -/
theorem promise_dispatch :
    (∀ f : CallbackFn, promise (.func f) = .adaptedFun (convertCallbackFun f)
      ∧ isFuture (promise (.func f)) = false)
    ∧ (∀ v : JSVal, promise (.value v) = .future (.ok v)
      ∧ isFuture (promise (.value v)) = true)
    ∧ (∀ s : Except JSVal JSVal, promise (.thenable s) = .future s) :=
  ⟨fun _ => ⟨rfl, rfl⟩, fun _ => ⟨rfl, rfl⟩, fun _ => rfl⟩

end LivelyPromise
